import Mathlib

/-!
Verification development for the rill-search crawler and in-memory search
engine (src/crawl.py, src/crawler/crawl.py, src/app.py).

The Python code is shallowly embedded: pure helpers become Lean functions on
`String`/`List Char` (ASCII fragment of Python's unicode-aware primitives,
which is exact on the ASCII inputs exercised here), the mutable crawl session
becomes explicit state passing, and code that can raise an uncaught Python
exception returns `Except`.  External libraries (requests, BeautifulSoup,
Whoosh, bleach, OpenAI) are modelled at their call boundary: a fetched page's
response and its already-resolved outgoing links are data of the model, and
the extracted page text is the input of `index_page`.
-/

namespace RillSearch

/-! ### String primitives (ASCII models of the Python `str` methods used) -/

/-- Model of Python `str.lower`: lowercase every character (ASCII). -/
def pyLower (s : String) : String := String.mk (s.toList.map Char.toLower)

/-- Drop leading whitespace characters. -/
def dropWsLead : List Char → List Char
  | [] => []
  | c :: cs => if c.isWhitespace then dropWsLead cs else c :: cs

/-- Drop whitespace at both ends of a character list. -/
def stripChars (l : List Char) : List Char :=
  (dropWsLead (dropWsLead l).reverse).reverse

/-- Model of Python `str.strip()` with no arguments. -/
def pyStrip (s : String) : String := String.mk (stripChars s.toList)

/-- A regex word character (`\w`): ASCII alphanumeric or underscore.
`re.sub('\W+', '', s)` deletes exactly the characters failing this test. -/
def isWordChar (c : Char) : Bool := c.isAlphanum || c == '_'

/-- The normalization applied to each word by `Crawler.index_page` in
src/crawl.py: `re.sub('\W+', '', word.lower().strip())`, i.e. lowercase,
strip surrounding whitespace, then delete every non-word character. -/
def normalizeWord (w : String) : String :=
  String.mk ((stripChars (w.toList.map Char.toLower)).filter isWordChar)

/-- Helper for `splitWsStr`: scan the characters, accumulating the current
word in reverse; whitespace runs separate words and produce no empties. -/
def wordsAux : List Char → List Char → List String
  | [], cur => if cur.isEmpty then [] else [String.mk cur.reverse]
  | c :: cs, cur =>
    if c.isWhitespace then
      if cur.isEmpty then wordsAux cs [] else String.mk cur.reverse :: wordsAux cs []
    else wordsAux cs (c :: cur)

/-- Model of Python `str.split()` with no separator: split on whitespace
runs, never yielding empty strings (used by `index_page` as `text.split()`). -/
def splitWsStr (s : String) : List String := wordsAux s.toList []

/-- Every character of `s` is a word character. -/
def allWordChars (s : String) : Bool := s.toList.all isWordChar

/-- Character-list prefix test, first list is the candidate prefix of the second. -/
def startsWithChars : List Char → List Char → Bool
  | [], _ => true
  | _ :: _, [] => false
  | p :: ps, c :: cs => p == c && startsWithChars ps cs

/-- Model of Python `s.startswith(pre)`. -/
def strStarts (s pre : String) : Bool := startsWithChars pre.toList s.toList

/-- Length of a string in characters (Python `len`). -/
def strLen (s : String) : Nat := s.toList.length

/-- Model of Python slicing `s[:n]` (first `n` characters). -/
def strTake (s : String) (n : Nat) : String := String.mk (s.toList.take n)

/-! ### URL parsing (the fragment of `urllib.parse.urlparse` the code uses)

`urlparse` splits off `scheme` when the text before the first `:` is a
nonempty run of scheme characters starting with a letter, and reads `netloc`
(host and optional port) after a leading `//`, up to the first of `/`, `?`
or `#`.  It is not total: after extracting the netloc, urlsplit raises
`ValueError: Invalid IPv6 URL` when the netloc contains `[` without `]` or
`]` without `[` (the bracket-pairing validation; the finer bracketed-host
content validation of newer CPython is outside this model and never reached
by the inputs here).  `urlNetloc`/`urlScheme` below are the values on the
non-raising path; `urlparse_netloc` is the full model with the error path,
and agrees with `urlNetloc` whenever it returns.  Only `netloc` (and, for
the refutation, `scheme`) matter to `Crawler.is_same_server`. -/

/-- Characters allowed in a URL scheme after the leading letter. -/
def isSchemeChar (c : Char) : Bool := c.isAlpha || c.isDigit || c == '+' || c == '-' || c == '.'

/-- Split a character list at its first `:`, if any. -/
def splitAtColon : List Char → Option (List Char × List Char)
  | [] => none
  | c :: cs =>
    if c == ':' then some ([], cs)
    else
      match splitAtColon cs with
      | some (pre, post) => some (c :: pre, post)
      | none => none

/-- Is this text a valid scheme: nonempty, leading letter, scheme chars only? -/
def validSchemePart (l : List Char) : Bool :=
  match l with
  | [] => false
  | c :: cs => c.isAlpha && (c :: cs).all isSchemeChar

/-- The URL text with a valid leading `scheme:` removed. -/
def afterScheme (l : List Char) : List Char :=
  match splitAtColon l with
  | some (pre, post) => if validSchemePart pre then post else l
  | none => l

/-- The scheme component of a URL (lowercased), `[]` when absent. -/
def schemeChars (l : List Char) : List Char :=
  match splitAtColon l with
  | some (pre, _) => if validSchemePart pre then pre.map Char.toLower else []
  | none => []

/-- The netloc (authority: host and optional port) component of a URL. -/
def netlocChars (l : List Char) : List Char :=
  match afterScheme l with
  | '/' :: '/' :: rest => rest.takeWhile (fun c => !(c == '/' || c == '?' || c == '#'))
  | _ => []

/-- `urlparse(url).netloc` of the model. -/
def urlNetloc (s : String) : String := String.mk (netlocChars s.toList)

/-- `urlparse(url).scheme` of the model. -/
def urlScheme (s : String) : String := String.mk (schemeChars s.toList)

/-- `Crawler.is_same_server` (identical in src/crawl.py and
src/crawler/crawl.py) on the non-raising path of `urlparse`: compare
`urlparse(start_url).netloc` with `urlparse(url).netloc` — nothing else.
The raising path is modelled by `is_same_server_run` below, which this
function agrees with whenever both authorities parse. -/
def is_same_server (start_url url : String) : Bool :=
  urlNetloc start_url == urlNetloc url

/-- The bracket-pairing validation urlsplit applies to an extracted netloc:
mismatched `[`/`]` means `ValueError: Invalid IPv6 URL`. -/
def bracketMismatch (nl : List Char) : Bool :=
  (nl.contains '[' && !(nl.contains ']')) || (nl.contains ']' && !(nl.contains '['))

/-- `urlparse(url).netloc` with Python's error path: `Except.error` is the
uncaught `ValueError`.  (Python runs the bracket check only when the URL has
a `//` authority; without one the netloc is empty and the check passes
trivially, so checking `netlocChars` unconditionally is the same function.) -/
def urlparse_netloc (s : String) : Except String String :=
  if bracketMismatch (netlocChars s.toList) then
    Except.error "ValueError: Invalid IPv6 URL"
  else Except.ok (String.mk (netlocChars s.toList))

/-- `Crawler.is_same_server` as actually executed: each of its two urlparse
calls can raise, and nothing on the call path catches the `ValueError`. -/
def is_same_server_run (start_url url : String) : Except String Bool := do
  let start_netloc ← urlparse_netloc start_url
  let url_netloc ← urlparse_netloc url
  pure (start_netloc == url_netloc)

/-- Did a fallible computation raise? -/
def exceptErrored {α : Type} : Except String α → Bool
  | Except.ok _ => false
  | Except.error _ => true

/-- The same-server selection the `parse_links` loop performs over a page's
resolved links, with the error path: evaluating the check on a link whose
authority is bracket-malformed raises `ValueError` (in the source the raise
already escapes from `urljoin` for such an href, before `is_same_server`;
either way it is the same uncaught `ValueError`), aborting `parse_links` and
with it the whole crawl.  On the non-raising path this equals the pure
`List.filter` that `crawlSteps` pushes. -/
def filterSameServer (su : String) : List String → Except String (List String)
  | [] => Except.ok []
  | l :: ls => do
    let b ← is_same_server_run su l
    let rest ← filterSameServer su ls
    pure (if b then l :: rest else rest)

/-! ### The in-memory index and search of src/crawl.py

`Crawler.index` is a Python dict `word -> list of urls`; association list
with insertion order at the tail, exactly dict insertion-order semantics for
the operations used (first-match lookup, append of a fresh key at the end). -/

/-- The in-memory index: term to posting list of URLs. -/
abbrev Index := List (String × List String)

/-- Dict lookup `index[word]` as an option. -/
def lookupIx : Index → String → Option (List String)
  | [], _ => none
  | (k, v) :: rest, w => if k = w then some v else lookupIx rest w

/-- The keys of the index (its terms). -/
def keys (ix : Index) : List String := ix.map Prod.fst

/-- One iteration of the `for word in words` body of `index_page`, for an
already-normalized word: create the posting list if the key is new, then
append the url if it is not already present. -/
def addWord : Index → String → String → Index
  | [], url, w => [(w, [url])]
  | (k, v) :: rest, url, w =>
    if k = w then (k, if url ∈ v then v else v ++ [url]) :: rest
    else (k, v) :: addWord rest url w

/-- `Crawler.index_page` of src/crawl.py, taking the visible text already
extracted from the HTML (BeautifulSoup's `get_text()` is an external
library): split on whitespace, normalize each word, record the url. -/
def index_page (ix : Index) (url : String) (text : String) : Index :=
  (splitWsStr text).foldl (fun acc w => addWord acc url (normalizeWord w)) ix

/-- Index a corpus of `(url, extracted text)` pages starting from the empty
index, as a fresh `Crawler` does. -/
def buildIndex (docs : List (String × String)) : Index :=
  docs.foldl (fun ix d => index_page ix d.1 d.2) []

/-- All normalized words occurring across the corpus (with repetition). -/
def allTerms (docs : List (String × String)) : List String :=
  (docs.map (fun d => (splitWsStr d.2).map normalizeWord)).flatten

/-- The test `word in self.index and url in self.index[word]` used by the
all-words filter of `Crawler.search`. -/
def containsUrl (ix : Index) (w url : String) : Bool :=
  match lookupIx ix w with
  | none => false
  | some urls => decide (url ∈ urls)

/-- Append a url to the accumulator unless already present
(`if url not in found_urls: found_urls.append(url)`). -/
def addUnique (acc : List String) (url : String) : List String :=
  if url ∈ acc then acc else acc ++ [url]

/-- One iteration of the word loop of `Crawler.search`: if the word is a key,
fold its posting list into the accumulator without duplicates. -/
def collectStep (ix : Index) (acc : List String) (w : String) : List String :=
  match lookupIx ix w with
  | none => acc
  | some urls => urls.foldl addUnique acc

/-- The `found_urls` accumulation loop of `Crawler.search`. -/
def collectUrls (ix : Index) (ws : List String) : List String :=
  ws.foldl (collectStep ix) []

/-- `Crawler.search` of src/crawl.py.  `normalized_words` is
`words.map pyLower` (the query side only lowercases); `found_urls` is the
deduplicated union of the posting lists; with `all_words` the result is
filtered to urls contained in every queried word's posting list. -/
def search (ix : Index) (words : List String) (all_words : Bool) : List String :=
  if all_words then
    (collectUrls ix (words.map pyLower)).filter
      (fun url => (words.map pyLower).all (fun w => containsUrl ix w url))
  else
    collectUrls ix (words.map pyLower)

/-! ### The crawl session (`crawl_page` / `parse_links`, both snapshots)

The two snapshots share this logic verbatim.  A fetched response is either
`Response.ok contentType links` — `requests.get` returned, with the given
declared Content-Type, and `links` are the page's `<a href>` targets already
resolved by `urljoin` (HTML parsing and resolution are external libraries) —
or `Response.raises`: `requests.get` raised (timeout, DNS failure, connection
refused).  A URL absent from the web also raises.

Python's recursion (`crawl_page` calls `parse_links` calls `crawl_page` on
each same-server link, in order) is embedded as an explicit stack of the
pending for-loop continuations: the stack holds, innermost first, the list of
URLs still to be passed to `crawl_page` at each active recursion level.
`fuel` bounds the number of processed stack entries; every run here uses
enough fuel, and exhaustion is reported like an abort. -/

/-- Outcome of `requests.get` for one URL. -/
inductive Response where
  | ok (contentType : String) (links : List String)
  | raises
deriving DecidableEq

/-- The (finite, fixed) web reachable by the crawler. -/
abbrev Web := List (String × Response)

/-- Look up the response for a URL; `none` means the request raises. -/
def fetchWeb : Web → String → Option Response
  | [], _ => none
  | (k, v) :: rest, u => if k = u then some v else fetchWeb rest u

/-- The mutable session state of a `Crawler`: the `visited_urls` set (as the
insertion-ordered list) and the instrumented log of every URL passed to
`requests.get`, in call order. -/
structure CrawlState where
  visited : List String
  fetchLog : List String
deriving DecidableEq

/-- An uncaught Python exception aborting the crawl, with the session state
at the moment of the raise. -/
structure CrawlAbort where
  message : String
  state : CrawlState
deriving DecidableEq

/-- Run the crawl.  The stack entry discipline: processing URL `u` at the top
of the head list is `crawl_page(u)`: skip if visited, else fetch (this is the
`requests.get` call, logged; a raise aborts the whole session), and only for
a Content-Type starting with `text/html` mark visited and push the page's
same-server links (the `parse_links` loop) as a new innermost level.  The
push uses the total `is_same_server`, i.e. it models runs in which every
link's authority parses; a link on which `urlparse` raises would abort the
session instead — that error path is modelled by `filterSameServer`. -/
def crawlSteps (web : Web) (su : String) : Nat → CrawlState → List (List String) → Except CrawlAbort CrawlState
  | 0, st, _ => Except.error ⟨"recursion limit", st⟩
  | fuel + 1, st, stack =>
    match stack with
    | [] => Except.ok st
    | [] :: rest => crawlSteps web su fuel st rest
    | (url :: urls) :: rest =>
      if url ∈ st.visited then
        crawlSteps web su fuel st (urls :: rest)
      else
        match fetchWeb web url with
        | none => Except.error ⟨"requests exception", ⟨st.visited, st.fetchLog ++ [url]⟩⟩
        | some Response.raises => Except.error ⟨"requests exception", ⟨st.visited, st.fetchLog ++ [url]⟩⟩
        | some (Response.ok ct links) =>
          if strStarts ct "text/html" then
            crawlSteps web su fuel ⟨st.visited ++ [url], st.fetchLog ++ [url]⟩
              ((links.filter (fun l => is_same_server su l)) :: urls :: rest)
          else
            crawlSteps web su fuel ⟨st.visited, st.fetchLog ++ [url]⟩ (urls :: rest)

/-- The session state of a crawl outcome (final state, or state at abort). -/
def stateOf : Except CrawlAbort CrawlState → CrawlState
  | Except.ok st => st
  | Except.error e => e.state

/-- Did the crawl abort with an uncaught exception? -/
def isAbort : Except CrawlAbort CrawlState → Bool
  | Except.ok _ => false
  | Except.error _ => true

/-- Number of occurrences of a URL in a log. -/
def occs : List String → String → Nat
  | [], _ => 0
  | x :: xs, u => (if x = u then 1 else 0) + occs xs u

/-- Is this URL served as HTML by the web? -/
def isHtmlUrl (web : Web) (u : String) : Bool :=
  match fetchWeb web u with
  | some (Response.ok ct _) => strStarts ct "text/html"
  | _ => false

/-! ### Content extraction of src/crawler/crawl.py -/

/-- `Crawler.extract_title`: the page title (BeautifulSoup's `soupie.title`,
an external parse, modelled as `Option String`) stripped when present, else
the page's own URL. -/
def extract_title (pageTitle : Option String) (url : String) : String :=
  match pageTitle with
  | some t => pyStrip t
  | none => url

/-- The fallback branch of `Crawler.generate_teaser`, taken whenever the
OpenAI call fails: the bleach-sanitized content (sanitization is an external
library; this function receives its output) truncated to 300 characters with
a trailing `...` when longer, unchanged otherwise. -/
def generate_teaser_fallback (sanitized_content : String) : String :=
  if 300 < strLen sanitized_content then strTake sanitized_content 300 ++ "..."
  else sanitized_content

/-! ### The `/search` route of src/app.py

The route reads `q`, and when the query is truthy searches the Whoosh index
(external; passed in as `doSearch`).  When the query is falsy it executes
`print(f"... {print_prefix} ...")` — but the local `print_prefix` is assigned
only inside the truthy branch, so Python raises `UnboundLocalError` before
the empty results page can be rendered.  Reading a possibly-unassigned local
is modelled by `readLocal`. -/

/-- Read a Python local variable: raises `UnboundLocalError` when the path
taken never assigned it. -/
def readLocal (v : Option String) (err : String) : Except String String :=
  match v with
  | some x => Except.ok x
  | none => Except.error err

/-- The `/search` route of src/app.py (frisky redirect elided — it sits
inside the truthy branch and does not affect the empty-query behaviour). -/
def appSearchRoute (q : Option String) (doSearch : String → List String) :
    Except String (List String) :=
  let truthy : Bool :=
    match q with
    | none => false
    | some s => !(s == "")
  if truthy then
    Except.ok (doSearch (q.getD ""))
  else
    match readLocal none "UnboundLocalError: print_prefix" with
    | Except.ok _ => Except.ok []
    | Except.error e => Except.error e

/-! ### Concrete fixtures used by witnesses and counterexamples -/

/-- Three same-server pages: `a` (HTML) links to the PDF `n` and to `b`
(HTML), and `b` links to `n` again. -/
def webC1 : Web :=
  [("http://s/a", Response.ok "text/html" ["http://s/n", "http://s/b"]),
   ("http://s/b", Response.ok "text/html" ["http://s/n"]),
   ("http://s/n", Response.ok "application/pdf" [])]

/-- One page whose only link's fetch raises. -/
def webC5 : Web :=
  [("http://s/a", Response.ok "text/html" ["http://s/dead"])]

/-- The final state of crawling `webC1` from `http://s/a`. -/
def stC1 : CrawlState :=
  ⟨["http://s/a", "http://s/b"],
   ["http://s/a", "http://s/n", "http://s/b", "http://s/n"]⟩

/-- A session that has already visited (and fetched) the start URL. -/
def stV : CrawlState := ⟨["http://s/a"], ["http://s/a"]⟩

/-- A small index: term `a` posts `u1, u2`; term `b` posts `u2`. -/
def ix3 : Index := [("a", ["u1", "u2"]), ("b", ["u2"])]

/-- A one-document corpus. -/
def docs2 : List (String × String) := [("http://s/a", "Hello world")]

/-- Another small corpus. -/
def docs9 : List (String × String) := [("http://s/a", "Hi there")]

/-- A 301-character string, exceeding the teaser budget. -/
def longStr : String := String.mk (List.replicate 301 'a')

/-! ## Helper lemmas -/

lemma toList_mk (l : List Char) : (String.mk l).toList = l := rfl

lemma strLen_mk (l : List Char) : strLen (String.mk l) = l.length := rfl

lemma toList_append (a b : String) : (a ++ b).toList = a.toList ++ b.toList := by
  cases a
  cases b
  rfl

lemma strLen_append (a b : String) : strLen (a ++ b) = strLen a + strLen b := by
  unfold strLen
  rw [toList_append, List.length_append]

lemma strLen_strTake (s : String) (n : Nat) : strLen (strTake s n) = min n (strLen s) := by
  unfold strTake strLen
  rw [toList_mk, List.length_take]

/-- The teaser fallback leaves short content unchanged. -/
lemma gtf_of_le (s : String) (h : strLen s ≤ 300) : generate_teaser_fallback s = s := by
  unfold generate_teaser_fallback
  rw [if_neg (by omega)]

/-- The teaser fallback truncates long content to 300 chars plus `...`. -/
lemma gtf_of_gt (s : String) (h : 300 < strLen s) :
    generate_teaser_fallback s = strTake s 300 ++ "..." := by
  unfold generate_teaser_fallback
  rw [if_pos h]

lemma strLen_gtf_gt (s : String) (h : 300 < strLen s) :
    strLen (generate_teaser_fallback s) = 303 := by
  rw [gtf_of_gt s h, strLen_append, strLen_strTake]
  have : min 300 (strLen s) = 300 := by omega
  rw [this]
  rfl

lemma gtf_le_303 (s : String) : strLen (generate_teaser_fallback s) ≤ 303 := by
  by_cases h : 300 < strLen s
  · rw [strLen_gtf_gt s h]
  · rw [gtf_of_le s (by omega)]
    omega

lemma gtf_idem (s : String) :
    generate_teaser_fallback (generate_teaser_fallback s) = generate_teaser_fallback s := by
  by_cases h : 300 < strLen s
  · rw [gtf_of_gt s h]
    have hlen : 300 < strLen (strTake s 300 ++ "...") := by
      rw [strLen_append, strLen_strTake]
      have h1 : min 300 (strLen s) = 300 := by omega
      have h2 : strLen "..." = 3 := rfl
      omega
    rw [gtf_of_gt _ hlen]
    have hlist : ((strTake s 300 ++ "...").toList).take 300 = s.toList.take 300 := by
      rw [toList_append]
      unfold strTake
      rw [toList_mk]
      have h300 : (s.toList.take 300).length = 300 := by
        rw [List.length_take]
        have hs : strLen s = s.toList.length := rfl
        omega
      rw [List.take_append_eq_append_take, h300, List.take_take]
      simp
    show String.mk (((strTake s 300 ++ "...").toList).take 300) ++ "..."
        = String.mk (s.toList.take 300) ++ "..."
    rw [hlist]
  · rw [gtf_of_le s (by omega), gtf_of_le s (by omega)]

/-! ## Claims C7, C8, C4 -/

/-- C7: when the summarizer fails, the teaser fallback is idempotent, its
output never exceeds 303 characters (the 300-character budget plus the
three-character ellipsis marker), it truncates content longer than 300
characters to exactly the 300-character prefix followed by `...`, and it
returns content of at most 300 characters unchanged.  (Determinism is
intrinsic: the fallback is a pure function of the sanitized content.) -/
theorem C7_teaser_fallback_props (s : String) :
    generate_teaser_fallback (generate_teaser_fallback s) = generate_teaser_fallback s
  ∧ strLen (generate_teaser_fallback s) ≤ 303
  ∧ (300 < strLen s → generate_teaser_fallback s = strTake s 300 ++ "...")
  ∧ (strLen s ≤ 300 → generate_teaser_fallback s = s) :=
  ⟨gtf_idem s, gtf_le_303 s, gtf_of_gt s, gtf_of_le s⟩

set_option maxRecDepth 10000 in
/-- Witness for C7 at concrete inputs: a 3-character body is returned
unchanged, and a 301-character body is truncated with the marker. -/
theorem C7_witness :
    generate_teaser_fallback "abc" = "abc"
  ∧ generate_teaser_fallback longStr = strTake longStr 300 ++ "..." :=
  ⟨(C7_teaser_fallback_props "abc").2.2.2 (by decide),
   (C7_teaser_fallback_props longStr).2.2.1 (by decide)⟩

/-- C8: when the page has no title element, `extract_title` returns the
page's own URL verbatim, so the resulting document has `title == url`. -/
theorem C8_missing_title_fallback (url : String) : extract_title none url = url := rfl

/-- C4 evaluated at the failing input (status: code_bug): an empty or absent
query makes the `/search` route raise `UnboundLocalError` (the logging in the
empty-query branch reads the local `print_prefix`, which is assigned only in
the truthy branch) instead of returning the intended empty result sequence. -/
theorem C4_empty_query_raises :
    appSearchRoute (some "") (fun _ => []) = Except.error "UnboundLocalError: print_prefix"
  ∧ appSearchRoute none (fun _ => []) = Except.error "UnboundLocalError: print_prefix" :=
  ⟨rfl, rfl⟩

/-! ## Index and search lemmas -/

/-- Characterization of lookup after one `addWord` step. -/
lemma lookup_addWord (ix : Index) (u w t : String) :
    lookupIx (addWord ix u w) t =
      if t = w then
        match lookupIx ix w with
        | none => some [u]
        | some v => some (if u ∈ v then v else v ++ [u])
      else lookupIx ix t := by
  induction ix with
  | nil =>
    by_cases ht : t = w
    · subst ht
      simp [addWord, lookupIx]
    · simp [addWord, lookupIx, ht, Ne.symm ht]
  | cons kv rest ih =>
    obtain ⟨k, v⟩ := kv
    by_cases hk : k = w
    · subst hk
      by_cases ht : t = k
      · subst ht
        simp [addWord, lookupIx]
      · simp [addWord, lookupIx, ht, Ne.symm ht]
    · by_cases ht : k = t
      · subst ht
        simp [addWord, lookupIx, hk, Ne.symm hk]
      · simp [addWord, lookupIx, hk, ht, ih]

lemma containsUrl_addWord_self (ix : Index) (u w : String) :
    containsUrl (addWord ix u w) w u = true := by
  unfold containsUrl
  rw [lookup_addWord, if_pos rfl]
  cases h : lookupIx ix w with
  | none => simp
  | some v =>
    by_cases hu : u ∈ v <;> simp [hu]

lemma containsUrl_addWord_mono (ix : Index) (u u' w w' : String)
    (h : containsUrl ix w u = true) :
    containsUrl (addWord ix u' w') w u = true := by
  unfold containsUrl at h ⊢
  rw [lookup_addWord]
  by_cases hw : w = w'
  · subst hw
    rw [if_pos rfl]
    cases hl : lookupIx ix w with
    | none => simp [hl] at h
    | some v =>
      rw [hl] at h
      simp only [decide_eq_true_eq] at h
      by_cases hu : u' ∈ v <;> simp [hu, h]
  · rw [if_neg hw]
    exact h

lemma containsUrl_foldWords_mono (u' : String) (ws : List String) :
    ∀ ix w u, containsUrl ix w u = true →
      containsUrl (ws.foldl (fun acc x => addWord acc u' (normalizeWord x)) ix) w u = true := by
  induction ws with
  | nil => intro ix w u h; exact h
  | cons x xs ih =>
    intro ix w u h
    rw [List.foldl_cons]
    exact ih _ w u (containsUrl_addWord_mono ix u u' w (normalizeWord x) h)

lemma containsUrl_foldWords_of_mem (u' : String) (ws : List String) :
    ∀ ix T, T ∈ ws.map normalizeWord →
      containsUrl (ws.foldl (fun acc x => addWord acc u' (normalizeWord x)) ix) T u' = true := by
  induction ws with
  | nil => intro ix T h; simp at h
  | cons x xs ih =>
    intro ix T h
    rw [List.map_cons, List.mem_cons] at h
    rw [List.foldl_cons]
    rcases h with rfl | h
    · exact containsUrl_foldWords_mono u' xs _ _ u'
        (containsUrl_addWord_self ix u' (normalizeWord x))
    · exact ih _ T h

lemma containsUrl_index_page_of_mem (ix : Index) (u text T : String)
    (h : T ∈ (splitWsStr text).map normalizeWord) :
    containsUrl (index_page ix u text) T u = true :=
  containsUrl_foldWords_of_mem u (splitWsStr text) ix T h

lemma containsUrl_index_page_mono (ix : Index) (u' text w u : String)
    (h : containsUrl ix w u = true) :
    containsUrl (index_page ix u' text) w u = true :=
  containsUrl_foldWords_mono u' (splitWsStr text) ix w u h

lemma containsUrl_foldDocs_mono (ds : List (String × String)) :
    ∀ ix T u, containsUrl ix T u = true →
      containsUrl (ds.foldl (fun acc d => index_page acc d.1 d.2) ix) T u = true := by
  induction ds with
  | nil => intro ix T u h; exact h
  | cons e es ih =>
    intro ix T u h
    rw [List.foldl_cons]
    exact ih _ T u (containsUrl_index_page_mono ix e.1 e.2 T u h)

lemma containsUrl_buildFold (docs : List (String × String)) :
    ∀ ix u text T, (u, text) ∈ docs → T ∈ (splitWsStr text).map normalizeWord →
      containsUrl (docs.foldl (fun acc d => index_page acc d.1 d.2) ix) T u = true := by
  induction docs with
  | nil => intro ix u text T h; simp at h
  | cons d ds ih =>
    intro ix u text T hmem hT
    rw [List.foldl_cons]
    rcases List.mem_cons.mp hmem with rfl | hmem
    · exact containsUrl_foldDocs_mono ds _ T u (containsUrl_index_page_of_mem ix u text T hT)
    · exact ih _ u text T hmem hT

lemma containsUrl_buildIndex (docs : List (String × String)) (u text T : String)
    (hmem : (u, text) ∈ docs) (hT : T ∈ (splitWsStr text).map normalizeWord) :
    containsUrl (buildIndex docs) T u = true :=
  containsUrl_buildFold docs [] u text T hmem hT

lemma lookup_addWord_isSome (ix : Index) (u w t : String)
    (h : (lookupIx (addWord ix u w) t).isSome = true) :
    t = w ∨ (lookupIx ix t).isSome = true := by
  rw [lookup_addWord] at h
  by_cases ht : t = w
  · exact Or.inl ht
  · rw [if_neg ht] at h
    exact Or.inr h

lemma lookup_foldWords_isSome (u' : String) (ws : List String) :
    ∀ ix t, (lookupIx (ws.foldl (fun acc x => addWord acc u' (normalizeWord x)) ix) t).isSome = true →
      (lookupIx ix t).isSome = true ∨ t ∈ ws.map normalizeWord := by
  induction ws with
  | nil => intro ix t h; exact Or.inl h
  | cons x xs ih =>
    intro ix t h
    rw [List.foldl_cons] at h
    rcases ih _ t h with h1 | h1
    · rcases lookup_addWord_isSome ix u' (normalizeWord x) t h1 with rfl | h2
      · right; simp
      · left; exact h2
    · right
      rw [List.map_cons, List.mem_cons]
      exact Or.inr h1

lemma lookup_index_page_isSome (ix : Index) (u text t : String)
    (h : (lookupIx (index_page ix u text) t).isSome = true) :
    (lookupIx ix t).isSome = true ∨ t ∈ (splitWsStr text).map normalizeWord :=
  lookup_foldWords_isSome u (splitWsStr text) ix t h

lemma lookup_buildFold_isSome (docs : List (String × String)) :
    ∀ ix t, (lookupIx (docs.foldl (fun acc d => index_page acc d.1 d.2) ix) t).isSome = true →
      (lookupIx ix t).isSome = true ∨ t ∈ allTerms docs := by
  induction docs with
  | nil => intro ix t h; exact Or.inl h
  | cons d ds ih =>
    intro ix t h
    rw [List.foldl_cons] at h
    rcases ih _ t h with h1 | h1
    · rcases lookup_index_page_isSome ix d.1 d.2 t h1 with h2 | h2
      · exact Or.inl h2
      · right
        unfold allTerms
        rw [List.map_cons, List.flatten_cons, List.mem_append]
        exact Or.inl h2
    · right
      unfold allTerms at h1 ⊢
      rw [List.map_cons, List.flatten_cons, List.mem_append]
      exact Or.inr h1

lemma lookup_buildIndex_isSome (docs : List (String × String)) (t : String)
    (h : (lookupIx (buildIndex docs) t).isSome = true) : t ∈ allTerms docs := by
  rcases lookup_buildFold_isSome docs [] t h with h1 | h1
  · simp [lookupIx] at h1
  · exact h1

lemma mem_keys_iff (ix : Index) (k : String) :
    k ∈ keys ix ↔ (lookupIx ix k).isSome = true := by
  induction ix with
  | nil => simp [keys, lookupIx]
  | cons kv rest ih =>
    obtain ⟨k', v⟩ := kv
    unfold keys at ih ⊢
    rw [List.map_cons, List.mem_cons]
    by_cases h : k' = k
    · subst h
      simp [lookupIx]
    · simp only [lookupIx, if_neg h]
      constructor
      · rintro (h1 | h1)
        · exact absurd h1.symm h
        · exact ih.mp h1
      · intro hs
        exact Or.inr (ih.mpr hs)

lemma allWordChars_normalizeWord (w : String) : allWordChars (normalizeWord w) = true := by
  unfold allWordChars normalizeWord
  rw [toList_mk, List.all_eq_true]
  intro c hc
  exact (List.mem_filter.mp hc).2

lemma allTerms_wordChars (docs : List (String × String)) (k : String)
    (h : k ∈ allTerms docs) : allWordChars k = true := by
  unfold allTerms at h
  obtain ⟨l, hl, hkl⟩ := List.mem_flatten.mp h
  obtain ⟨d, _, hdl⟩ := List.mem_map.mp hl
  subst hdl
  obtain ⟨w, _, hw⟩ := List.mem_map.mp hkl
  subst hw
  exact allWordChars_normalizeWord w

/-! Search membership characterization. -/

lemma mem_addUnique (acc : List String) (v u : String) :
    u ∈ addUnique acc v ↔ u ∈ acc ∨ u = v := by
  unfold addUnique
  split
  · rename_i h
    constructor
    · exact Or.inl
    · rintro (hu | rfl)
      · exact hu
      · exact h
  · simp

lemma mem_foldl_addUnique (urls : List String) :
    ∀ acc u, u ∈ urls.foldl addUnique acc ↔ u ∈ acc ∨ u ∈ urls := by
  induction urls with
  | nil => intro acc u; simp
  | cons v vs ih =>
    intro acc u
    rw [List.foldl_cons, ih, mem_addUnique]
    simp [or_assoc]

lemma mem_collectFold (ix : Index) (ws : List String) :
    ∀ acc u, u ∈ ws.foldl (collectStep ix) acc ↔
      u ∈ acc ∨ ∃ w, w ∈ ws ∧ containsUrl ix w u = true := by
  induction ws with
  | nil => intro acc u; simp
  | cons w vs ih =>
    intro acc u
    rw [List.foldl_cons, ih]
    unfold collectStep
    cases hw : lookupIx ix w with
    | none =>
      have hc : containsUrl ix w u = false := by unfold containsUrl; rw [hw]
      constructor
      · rintro (hu | ⟨w', hw', hc'⟩)
        · exact Or.inl hu
        · exact Or.inr ⟨w', List.mem_cons_of_mem _ hw', hc'⟩
      · rintro (hu | ⟨w', hw', hc'⟩)
        · exact Or.inl hu
        · rcases List.mem_cons.mp hw' with rfl | hw'
          · rw [hc] at hc'; cases hc'
          · exact Or.inr ⟨w', hw', hc'⟩
    | some urls =>
      rw [mem_foldl_addUnique]
      have hc : containsUrl ix w u = true ↔ u ∈ urls := by
        unfold containsUrl
        rw [hw]
        simp
      constructor
      · rintro ((hu | hu) | ⟨w', hw', hc'⟩)
        · exact Or.inl hu
        · exact Or.inr ⟨w, List.mem_cons_self _ _, hc.mpr hu⟩
        · exact Or.inr ⟨w', List.mem_cons_of_mem _ hw', hc'⟩
      · rintro (hu | ⟨w', hw', hc'⟩)
        · exact Or.inl (Or.inl hu)
        · rcases List.mem_cons.mp hw' with rfl | hw'
          · exact Or.inl (Or.inr (hc.mp hc'))
          · exact Or.inr ⟨w', hw', hc'⟩

lemma mem_collectUrls (ix : Index) (ws : List String) (u : String) :
    u ∈ collectUrls ix ws ↔ ∃ w, w ∈ ws ∧ containsUrl ix w u = true := by
  unfold collectUrls
  rw [mem_collectFold]
  simp

lemma mem_search_false (ix : Index) (ws : List String) (u : String) :
    u ∈ search ix ws false ↔
      ∃ w, w ∈ ws.map pyLower ∧ containsUrl ix w u = true := by
  unfold search
  simp only [Bool.false_eq_true, if_false]
  exact mem_collectUrls ix (ws.map pyLower) u

lemma mem_search_true (ix : Index) (ws : List String) (u : String) :
    u ∈ search ix ws true ↔
      (∃ w, w ∈ ws.map pyLower ∧ containsUrl ix w u = true) ∧
      ∀ w ∈ ws.map pyLower, containsUrl ix w u = true := by
  unfold search
  simp only [if_true]
  rw [List.mem_filter, mem_collectUrls]
  simp [List.all_eq_true]

/-! Duplicate-freeness lemmas. -/

lemma nodup_append_singleton (l : List String) (v : String) (h : l.Nodup) (hv : v ∉ l) :
    (l ++ [v]).Nodup := by
  rw [List.nodup_append]
  exact ⟨h, List.nodup_singleton v, by simpa using hv⟩

lemma nodup_addUnique (acc : List String) (v : String) (h : acc.Nodup) :
    (addUnique acc v).Nodup := by
  unfold addUnique
  split
  · exact h
  · rename_i hv
    exact nodup_append_singleton acc v h hv

lemma nodup_foldl_addUnique (urls : List String) :
    ∀ acc : List String, acc.Nodup → (urls.foldl addUnique acc).Nodup := by
  induction urls with
  | nil => intro acc h; exact h
  | cons v vs ih =>
    intro acc h
    rw [List.foldl_cons]
    exact ih _ (nodup_addUnique acc v h)

lemma nodup_foldl_collectStep (ix : Index) (ws : List String) :
    ∀ acc : List String, acc.Nodup → (ws.foldl (collectStep ix) acc).Nodup := by
  induction ws with
  | nil => intro acc h; exact h
  | cons w vs ih =>
    intro acc h
    rw [List.foldl_cons]
    apply ih
    unfold collectStep
    cases lookupIx ix w with
    | none => exact h
    | some urls => exact nodup_foldl_addUnique urls acc h

lemma nodup_collectUrls (ix : Index) (ws : List String) : (collectUrls ix ws).Nodup :=
  nodup_foldl_collectStep ix ws [] List.nodup_nil

lemma postingsNodup_addWord (ix : Index) (u w : String)
    (h : ∀ t urls, lookupIx ix t = some urls → urls.Nodup) :
    ∀ t urls, lookupIx (addWord ix u w) t = some urls → urls.Nodup := by
  intro t urls
  rw [lookup_addWord]
  by_cases ht : t = w
  · rw [if_pos ht]
    cases hl : lookupIx ix w with
    | none =>
      intro he
      injection he with he
      subst he
      exact List.nodup_singleton u
    | some v =>
      intro he
      injection he with he
      subst he
      by_cases hu : u ∈ v
      · rw [if_pos hu]
        exact h w v hl
      · rw [if_neg hu]
        exact nodup_append_singleton v u (h w v hl) hu
  · rw [if_neg ht]
    exact h t urls

lemma postingsNodup_foldWords (u' : String) (ws : List String) :
    ∀ ix, (∀ t urls, lookupIx ix t = some urls → urls.Nodup) →
      ∀ t urls, lookupIx (ws.foldl (fun acc x => addWord acc u' (normalizeWord x)) ix) t = some urls →
        urls.Nodup := by
  induction ws with
  | nil => intro ix h; exact h
  | cons x xs ih =>
    intro ix h
    rw [List.foldl_cons]
    exact ih _ (postingsNodup_addWord ix u' (normalizeWord x) h)

lemma postingsNodup_index_page (ix : Index) (u text : String)
    (h : ∀ t urls, lookupIx ix t = some urls → urls.Nodup) :
    ∀ t urls, lookupIx (index_page ix u text) t = some urls → urls.Nodup :=
  postingsNodup_foldWords u (splitWsStr text) ix h

lemma postingsNodup_buildFold (docs : List (String × String)) :
    ∀ ix, (∀ t urls, lookupIx ix t = some urls → urls.Nodup) →
      ∀ t urls, lookupIx (docs.foldl (fun acc d => index_page acc d.1 d.2) ix) t = some urls →
        urls.Nodup := by
  induction docs with
  | nil => intro ix h; exact h
  | cons d ds ih =>
    intro ix h
    rw [List.foldl_cons]
    exact ih _ (postingsNodup_index_page ix d.1 d.2 h)

lemma postingsNodup_buildIndex (docs : List (String × String)) :
    ∀ t urls, lookupIx (buildIndex docs) t = some urls → urls.Nodup :=
  postingsNodup_buildFold docs [] (by intro t urls h; cases h)

/-! ## Claims C2, C3, C9, C10 -/

/-- C2 counterexample: the document `http://s/a` with body `Hello!` is
indexed under the term `hello` (the raw word `Hello!` normalizes to `hello`
on the document side), yet searching for the raw word `Hello!` returns
nothing, because the query side only lowercases (to `hello!`) and does not
strip the non-alphanumeric `!` — contradicting the claim that search terms
undergo the same normalization and that such a search includes the document. -/
theorem C2_counterexample :
    normalizeWord "Hello!" = "hello"
  ∧ containsUrl (buildIndex [("http://s/a", "Hello!")]) "hello" "http://s/a" = true
  ∧ search (buildIndex [("http://s/a", "Hello!")]) ["Hello!"] true = [] := by
  refine ⟨rfl, by decide, rfl⟩

/-- C2 (amended): the query side normalizes by lowercasing only.  Hence
(i) for every corpus, document `(u, text)` of it, and raw query word `w`
whose lowercase form is a normalized word of `text`, the single-term AND
search for `w` includes `u`; and (ii) for every candidate term `T` that is
already lowercase and is not a normalized word of any document, the
single-term search for `T` is empty in both modes. -/
theorem C2_amended_search_normalization :
    (∀ docs u text w, (u, text) ∈ docs →
        pyLower w ∈ (splitWsStr text).map normalizeWord →
        u ∈ search (buildIndex docs) [w] true)
  ∧ (∀ docs T b, pyLower T = T → T ∉ allTerms docs →
        search (buildIndex docs) [T] b = []) := by
  constructor
  · intro docs u text w hmem hT
    have hc : containsUrl (buildIndex docs) (pyLower w) u = true :=
      containsUrl_buildIndex docs u text (pyLower w) hmem hT
    rw [mem_search_true]
    constructor
    · exact ⟨pyLower w, by simp, hc⟩
    · intro w' hw'
      simp only [List.map_cons, List.map_nil, List.mem_singleton] at hw'
      subst hw'
      exact hc
  · intro docs T b hl hT
    have hnone : lookupIx (buildIndex docs) T = none := by
      cases h : lookupIx (buildIndex docs) T with
      | none => rfl
      | some urls =>
        exact absurd (lookup_buildIndex_isSome docs T (by rw [h]; rfl)) hT
    unfold search collectUrls
    simp only [List.map_cons, List.map_nil, List.foldl_cons, List.foldl_nil]
    have hstep : collectStep (buildIndex docs) [] (pyLower T) = [] := by
      unfold collectStep
      rw [hl, hnone]
    rw [hstep]
    cases b <;> simp

/-- Witness for C2 (amended) at a concrete corpus: the raw query `HELLO`
(lowercasing to the indexed term `hello`) finds the document, and the absent
term `zebra` yields no results. -/
theorem C2_witness :
    "http://s/a" ∈ search (buildIndex docs2) ["HELLO"] true
  ∧ search (buildIndex docs2) ["zebra"] true = [] :=
  ⟨C2_amended_search_normalization.1 docs2 "http://s/a" "Hello world" "HELLO"
      (by decide) (by decide),
   C2_amended_search_normalization.2 docs2 "zebra" true (by decide) (by decide)⟩

/-- C3: for every index and pair of terms, the AND search is contained in
the OR search, and the AND search holds exactly the URLs lying in both
single-term searches (set equality stated as a membership equivalence). -/
theorem C3_and_or_intersection (ix : Index) (t1 t2 u : String) :
    (u ∈ search ix [t1, t2] true → u ∈ search ix [t1, t2] false)
  ∧ (u ∈ search ix [t1, t2] true ↔ u ∈ search ix [t1] true ∧ u ∈ search ix [t2] true) := by
  constructor
  · intro h
    rw [mem_search_false]
    exact ((mem_search_true ix [t1, t2] u).mp h).1
  · rw [mem_search_true, mem_search_true, mem_search_true]
    simp
    tauto

/-- Witness for C3 on a concrete index: `u2` lies in the AND result, hence
in the OR result and in both single-term results. -/
theorem C3_witness :
    "u2" ∈ search ix3 ["a", "b"] false
  ∧ ("u2" ∈ search ix3 ["a"] true ∧ "u2" ∈ search ix3 ["b"] true) :=
  ⟨(C3_and_or_intersection ix3 "a" "b" "u2").1 (by decide),
   (C3_and_or_intersection ix3 "a" "b" "u2").2.mp (by decide)⟩

/-- C9 counterexample: indexing a page containing the word `!!!` (which
strips to the empty string) stores the empty string as a term of the index,
and `normalizeWord` keeps underscores although they are not alphanumeric —
contradicting the claim that empty words are discarded and that all
non-alphanumeric characters are stripped. -/
theorem C9_counterexample :
    lookupIx (buildIndex [("http://s/a", "hi !!!")]) "" = some ["http://s/a"]
  ∧ normalizeWord "_a_" = "_a_" := by
  refine ⟨by decide, rfl⟩

/-- C9 (amended): each indexed word is lowercased, trimmed, and stripped of
every character that is not an ASCII alphanumeric or underscore (the regex
`\W` keeps underscores); the stripped word is indexed even when empty, so
the empty string can be a term.  Every term of an index built from a corpus
is the normalization of some whitespace-delimited word of that corpus and
consists only of word characters. -/
theorem C9_amended_terms (docs : List (String × String)) (k : String)
    (hk : k ∈ keys (buildIndex docs)) :
    k ∈ allTerms docs ∧ allWordChars k = true := by
  have h1 : k ∈ allTerms docs :=
    lookup_buildIndex_isSome docs k ((mem_keys_iff _ _).mp hk)
  exact ⟨h1, allTerms_wordChars docs k h1⟩

/-- Witness for C9 (amended): the term `hi` of the concrete corpus is a
normalized word of it and consists of word characters. -/
theorem C9_witness : "hi" ∈ allTerms docs9 ∧ allWordChars "hi" = true :=
  C9_amended_terms docs9 "hi" (by decide)

/-- C10: for every index, query word list and mode, the search result
contains no duplicate URLs; and every posting list of an index built by
`index_page` from the empty index is duplicate-free. -/
theorem C10_no_duplicates (ix : Index) (ws : List String) (b : Bool)
    (docs : List (String × String)) :
    (search ix ws b).Nodup
  ∧ (∀ t urls, lookupIx (buildIndex docs) t = some urls → urls.Nodup) := by
  constructor
  · unfold search
    cases b
    · simp only [Bool.false_eq_true, if_false]
      exact nodup_collectUrls ix (ws.map pyLower)
    · simp only [if_true]
      exact (nodup_collectUrls ix (ws.map pyLower)).filter _
  · exact postingsNodup_buildIndex docs

/-- Witness for C10 at a concrete index and corpus: the search result and a
concrete posting list, both duplicate-free. -/
theorem C10_witness :
    (search ix3 ["a", "b"] true).Nodup ∧ (["http://s/a"] : List String).Nodup :=
  ⟨(C10_no_duplicates ix3 ["a", "b"] true docs2).1,
   (C10_no_duplicates ix3 ["a", "b"] true docs2).2 "hello" ["http://s/a"] (by decide)⟩

/-! ## Crawl session lemmas -/

lemma occs_append (l1 l2 : List String) (u : String) :
    occs (l1 ++ l2) u = occs l1 u + occs l2 u := by
  induction l1 with
  | nil => simp [occs]
  | cons x xs ih => simp [occs, ih, Nat.add_assoc]

lemma occs_singleton_self (u : String) : occs [u] u = 1 := by simp [occs]

lemma occs_singleton_ne (x u : String) (h : x ≠ u) : occs [x] u = 0 := by simp [occs, h]

/-- Fetching a URL that is not HTML (or whose fetch is about to raise)
appends it to the log without touching the visited set, preserving the
fetched-once invariant. -/
lemma fetchOnce_log_nonhtml (web : Web) (st : CrawlState) (url : String)
    (hv : url ∉ st.visited) (hh : isHtmlUrl web url = false)
    (h1 : ∀ u, u ∈ st.visited → occs st.fetchLog u = 1)
    (h2 : ∀ u, isHtmlUrl web u = true → u ∉ st.visited → occs st.fetchLog u = 0) :
    (∀ u, u ∈ st.visited → occs (st.fetchLog ++ [url]) u = 1) ∧
    (∀ u, isHtmlUrl web u = true → u ∉ st.visited → occs (st.fetchLog ++ [url]) u = 0) := by
  constructor
  · intro u hu
    have hne : url ≠ u := fun e => hv (e ▸ hu)
    rw [occs_append, occs_singleton_ne url u hne, h1 u hu]
  · intro u hhtml hu
    have hne : url ≠ u := by
      intro e
      rw [e] at hh
      rw [hhtml] at hh
      cases hh
    rw [occs_append, occs_singleton_ne url u hne, h2 u hhtml hu]

/-- Fetching a fresh HTML URL marks it visited and logs it, preserving the
fetched-once invariant. -/
lemma fetchOnce_log_html (web : Web) (st : CrawlState) (url : String)
    (hv : url ∉ st.visited) (hh : isHtmlUrl web url = true)
    (h1 : ∀ u, u ∈ st.visited → occs st.fetchLog u = 1)
    (h2 : ∀ u, isHtmlUrl web u = true → u ∉ st.visited → occs st.fetchLog u = 0) :
    (∀ u, u ∈ st.visited ++ [url] → occs (st.fetchLog ++ [url]) u = 1) ∧
    (∀ u, isHtmlUrl web u = true → u ∉ st.visited ++ [url] → occs (st.fetchLog ++ [url]) u = 0) := by
  constructor
  · intro u hu
    rw [List.mem_append, List.mem_singleton] at hu
    rcases hu with hu | heq
    · have hne : url ≠ u := fun e => hv (e ▸ hu)
      rw [occs_append, occs_singleton_ne url u hne, h1 u hu]
    · rw [heq, occs_append, occs_singleton_self, h2 url hh hv]
  · intro u hhtml hu
    rw [List.mem_append, List.mem_singleton] at hu
    push_neg at hu
    obtain ⟨hu1, hu2⟩ := hu
    rw [occs_append, occs_singleton_ne url u (Ne.symm hu2), h2 u hhtml hu1]

/-- The fetched-once invariant is preserved by a whole crawl run: every URL
of the visited set has been fetched exactly once, and every not-yet-visited
HTML URL has never been fetched. -/
lemma crawlSteps_fetchOnce (web : Web) (su : String) :
    ∀ fuel st stack,
      (∀ u, u ∈ st.visited → occs st.fetchLog u = 1) →
      (∀ u, isHtmlUrl web u = true → u ∉ st.visited → occs st.fetchLog u = 0) →
      (∀ u, u ∈ (stateOf (crawlSteps web su fuel st stack)).visited →
          occs (stateOf (crawlSteps web su fuel st stack)).fetchLog u = 1) ∧
      (∀ u, isHtmlUrl web u = true →
          u ∉ (stateOf (crawlSteps web su fuel st stack)).visited →
          occs (stateOf (crawlSteps web su fuel st stack)).fetchLog u = 0) := by
  intro fuel
  induction fuel with
  | zero =>
    intro st stack h1 h2
    simp only [crawlSteps, stateOf]
    exact ⟨h1, h2⟩
  | succ n ih =>
    intro st stack h1 h2
    cases stack with
    | nil =>
      simp only [crawlSteps, stateOf]
      exact ⟨h1, h2⟩
    | cons hd rest =>
      cases hd with
      | nil =>
        simp only [crawlSteps]
        exact ih st rest h1 h2
      | cons url urls =>
        by_cases hv : url ∈ st.visited
        · simp only [crawlSteps, if_pos hv]
          exact ih st (urls :: rest) h1 h2
        · simp only [crawlSteps, if_neg hv]
          cases hw : fetchWeb web url with
          | none =>
            simp only [stateOf]
            exact fetchOnce_log_nonhtml web st url hv (by unfold isHtmlUrl; rw [hw]) h1 h2
          | some resp =>
            cases resp with
            | raises =>
              simp only [stateOf]
              exact fetchOnce_log_nonhtml web st url hv (by unfold isHtmlUrl; rw [hw]) h1 h2
            | ok ct links =>
              dsimp only
              by_cases hct : strStarts ct "text/html" = true
              · rw [if_pos hct]
                have hres := fetchOnce_log_html web st url hv
                  (by unfold isHtmlUrl; rw [hw]; exact hct) h1 h2
                exact ih ⟨st.visited ++ [url], st.fetchLog ++ [url]⟩
                  ((links.filter (fun l => is_same_server su l)) :: urls :: rest)
                  hres.1 hres.2
              · rw [if_neg hct]
                have hctf : strStarts ct "text/html" = false := by simpa using hct
                have hres := fetchOnce_log_nonhtml web st url hv
                  (by unfold isHtmlUrl; rw [hw]; exact hctf) h1 h2
                exact ih ⟨st.visited, st.fetchLog ++ [url]⟩ (urls :: rest) hres.1 hres.2

/-- Every URL ever passed to `requests.get` during a crawl run is the start
URL or passed the same-server check. -/
lemma crawlSteps_origin (web : Web) (su : String) :
    ∀ fuel st stack,
      (∀ u, u ∈ st.fetchLog → u = su ∨ is_same_server su u = true) →
      (∀ l, l ∈ stack → ∀ u, u ∈ l → u = su ∨ is_same_server su u = true) →
      ∀ u, u ∈ (stateOf (crawlSteps web su fuel st stack)).fetchLog →
        u = su ∨ is_same_server su u = true := by
  intro fuel
  induction fuel with
  | zero =>
    intro st stack hlog _ u hu
    simp only [crawlSteps, stateOf] at hu
    exact hlog u hu
  | succ n ih =>
    intro st stack hlog hstack
    cases stack with
    | nil =>
      intro u hu
      simp only [crawlSteps, stateOf] at hu
      exact hlog u hu
    | cons hd rest =>
      cases hd with
      | nil =>
        simp only [crawlSteps]
        exact ih st rest hlog (fun l hl => hstack l (List.mem_cons_of_mem _ hl))
      | cons url urls =>
        have hurl : url = su ∨ is_same_server su url = true :=
          hstack _ (List.mem_cons_self _ _) url (List.mem_cons_self _ _)
        have hrest : ∀ l, l ∈ urls :: rest → ∀ u, u ∈ l →
            u = su ∨ is_same_server su u = true := by
          intro l hl u hu
          rcases List.mem_cons.mp hl with rfl | hl
          · exact hstack _ (List.mem_cons_self _ _) u (List.mem_cons_of_mem _ hu)
          · exact hstack l (List.mem_cons_of_mem _ hl) u hu
        have hlog1 : ∀ u, u ∈ st.fetchLog ++ [url] →
            u = su ∨ is_same_server su u = true := by
          intro u hu
          rcases List.mem_append.mp hu with hu | hu
          · exact hlog u hu
          · rw [List.mem_singleton] at hu
            subst hu
            exact hurl
        by_cases hv : url ∈ st.visited
        · simp only [crawlSteps, if_pos hv]
          exact ih st (urls :: rest) hlog hrest
        · simp only [crawlSteps, if_neg hv]
          cases hw : fetchWeb web url with
          | none =>
            intro u hu
            simp only [stateOf] at hu
            exact hlog1 u hu
          | some resp =>
            cases resp with
            | raises =>
              intro u hu
              simp only [stateOf] at hu
              exact hlog1 u hu
            | ok ct links =>
              dsimp only
              by_cases hct : strStarts ct "text/html" = true
              · rw [if_pos hct]
                refine ih ⟨st.visited ++ [url], st.fetchLog ++ [url]⟩
                  ((links.filter (fun l => is_same_server su l)) :: urls :: rest) hlog1 ?_
                intro l hl u hu
                rcases List.mem_cons.mp hl with rfl | hl
                · exact Or.inr (List.mem_filter.mp hu).2
                · exact hrest l hl u hu
              · rw [if_neg hct]
                exact ih ⟨st.visited, st.fetchLog ++ [url]⟩ (urls :: rest) hlog1 hrest

/-! ## Claims C1, C5, C6 -/

/-- C1 counterexample: crawling `webC1` from `http://s/a`, the non-HTML URL
`http://s/n` is passed to `requests.get` twice in one session (once when
discovered from `a`, again when rediscovered from `b`), because a fetch is
recorded in the visited set only when the response is declared HTML —
refuting "every URL is retrieved at most once". -/
theorem C1_counterexample :
    occs (stateOf (crawlSteps webC1 "http://s/a" 20 ⟨[], []⟩ [["http://s/a"]])).fetchLog
      "http://s/n" = 2 := by decide

/-- C1 (amended): membership in the visited set is checked before any fetch,
so a URL already visited is never fetched again (first conjunct: the crawl
step skips it untouched); but a fetch adds the URL to the visited set only
when the response is declared HTML — a non-HTML response is fetched and
logged with the visited set unchanged (second conjunct) — and consequently
the at-most-once guarantee holds exactly for the URLs that enter the visited
set: in any completed run from a fresh session, every visited URL was passed
to `requests.get` exactly once (third conjunct). -/
theorem C1_amended_visited_once :
    (∀ web su fuel st url urls rest, url ∈ st.visited →
       crawlSteps web su (fuel + 1) st ((url :: urls) :: rest)
         = crawlSteps web su fuel st (urls :: rest))
  ∧ (∀ web su fuel st url urls rest ct links, url ∉ st.visited →
       fetchWeb web url = some (Response.ok ct links) →
       strStarts ct "text/html" = false →
       crawlSteps web su (fuel + 1) st ((url :: urls) :: rest)
         = crawlSteps web su fuel ⟨st.visited, st.fetchLog ++ [url]⟩ (urls :: rest))
  ∧ (∀ web su fuel stack stF, crawlSteps web su fuel ⟨[], []⟩ stack = Except.ok stF →
       ∀ u, u ∈ stF.visited → occs stF.fetchLog u = 1) := by
  refine ⟨?_, ?_, ?_⟩
  · intro web su fuel st url urls rest hv
    simp only [crawlSteps, if_pos hv]
  · intro web su fuel st url urls rest ct links hv hw hct
    simp only [crawlSteps, if_neg hv]
    rw [hw]
    simp only [hct, Bool.false_eq_true, if_false]
  · intro web su fuel stack stF hok u hu
    have h := (crawlSteps_fetchOnce web su fuel ⟨[], []⟩ stack
      (by simp) (by intro u _ _; rfl)).1
    rw [hok] at h
    exact h u hu

/-- Witness for C1 (amended) at concrete inputs: skipping an already-visited
start URL, logging a PDF fetch without visiting, and the final state of the
`webC1` run fetching each visited URL exactly once. -/
theorem C1_witness :
    crawlSteps webC1 "http://s/a" 5 stV [["http://s/a"]]
      = crawlSteps webC1 "http://s/a" 4 stV [[]]
  ∧ crawlSteps webC1 "http://s/a" 5 ⟨[], []⟩ [["http://s/n"]]
      = crawlSteps webC1 "http://s/a" 4 ⟨[], ["http://s/n"]⟩ [[]]
  ∧ occs stC1.fetchLog "http://s/a" = 1 :=
  ⟨C1_amended_visited_once.1 webC1 "http://s/a" 4 stV "http://s/a" [] [] (by decide),
   C1_amended_visited_once.2.1 webC1 "http://s/a" 4 ⟨[], []⟩ "http://s/n" [] []
     "application/pdf" [] (by decide) (by decide) (by decide),
   C1_amended_visited_once.2.2 webC1 "http://s/a" 20 [["http://s/a"]] stC1 (by rfl)
     "http://s/a" (by decide)⟩

/-- C5 counterexample: crawling `webC5`, the fetch of `http://s/dead` raises
and the whole crawl aborts with an uncaught exception, and the failed URL is
not marked visited — refuting "the crawl never aborts" and "the URL is still
marked visited". -/
theorem C5_counterexample :
    isAbort (crawlSteps webC5 "http://s/a" 10 ⟨[], []⟩ [["http://s/a"]]) = true
  ∧ "http://s/dead" ∉ (stateOf (crawlSteps webC5 "http://s/a" 10 ⟨[], []⟩ [["http://s/a"]])).visited := by
  exact ⟨rfl, by decide⟩

/-- C5 (amended): a transport failure (the `requests.get` call raising, e.g.
timeout, DNS failure, connection refused) is not caught anywhere: the crawl
session aborts immediately with the exception, and the failing URL is not
added to the visited set.  (Non-2xx responses never raise in this code and
are processed like any response according to their declared Content-Type.) -/
theorem C5_amended_abort (web : Web) (su url : String) (fuel : Nat) (st : CrawlState)
    (urls : List String) (rest : List (List String))
    (hv : url ∉ st.visited)
    (hf : fetchWeb web url = none ∨ fetchWeb web url = some Response.raises) :
    crawlSteps web su (fuel + 1) st ((url :: urls) :: rest)
      = Except.error ⟨"requests exception", ⟨st.visited, st.fetchLog ++ [url]⟩⟩
  ∧ url ∉ (stateOf (crawlSteps web su (fuel + 1) st ((url :: urls) :: rest))).visited := by
  have heq : crawlSteps web su (fuel + 1) st ((url :: urls) :: rest)
      = Except.error ⟨"requests exception", ⟨st.visited, st.fetchLog ++ [url]⟩⟩ := by
    simp only [crawlSteps, if_neg hv]
    rcases hf with hf | hf <;> rw [hf]
  refine ⟨heq, ?_⟩
  rw [heq]
  exact hv

/-- Witness for C5 (amended) at a concrete input: fetching the unknown URL
`http://s/x` aborts the session with the state showing the attempted fetch
and an unchanged visited set. -/
theorem C5_witness :
    crawlSteps webC1 "http://s/a" 4 ⟨[], []⟩ [["http://s/x"]]
      = Except.error ⟨"requests exception", ⟨[], ["http://s/x"]⟩⟩
  ∧ "http://s/x" ∉ (stateOf (crawlSteps webC1 "http://s/a" 4 ⟨[], []⟩ [["http://s/x"]])).visited :=
  C5_amended_abort webC1 "http://s/a" "http://s/x" 3 ⟨[], []⟩ [] []
    (by decide) (Or.inl (by decide))

/-! URL error-path lemmas for C6. -/

/-- On the non-raising path, the checked parse agrees with the total model. -/
lemma urlparse_netloc_ok (s n : String) (h : urlparse_netloc s = Except.ok n) :
    urlNetloc s = n := by
  unfold urlparse_netloc at h
  split at h
  · cases h
  · exact Except.ok.inj h

/-- When both authorities parse, the executed check returns the pure
comparison without raising. -/
lemma is_same_server_run_ok (s u ns nu : String)
    (hs : urlparse_netloc s = Except.ok ns) (hu : urlparse_netloc u = Except.ok nu) :
    is_same_server_run s u = Except.ok (is_same_server s u) := by
  unfold is_same_server_run
  rw [hs, hu]
  have h1 : urlNetloc s = ns := urlparse_netloc_ok s ns hs
  have h2 : urlNetloc u = nu := urlparse_netloc_ok u nu hu
  unfold is_same_server
  rw [h1, h2]
  rfl

/-- If the candidate URL's authority does not parse, the executed check
raises (whatever the start URL is). -/
lemma is_same_server_run_errored (su l e : String)
    (he : urlparse_netloc l = Except.error e) :
    exceptErrored (is_same_server_run su l) = true := by
  unfold is_same_server_run
  cases hs : urlparse_netloc su with
  | error e' => rfl
  | ok sn =>
    rw [he]
    exact rfl

/-- A link whose authority does not parse makes the same-server selection of
`parse_links` raise. -/
lemma filterSameServer_error (su : String) (ls : List String) (l e : String)
    (hl : l ∈ ls) (he : urlparse_netloc l = Except.error e) :
    exceptErrored (filterSameServer su ls) = true := by
  induction ls with
  | nil => cases hl
  | cons x xs ih =>
    unfold filterSameServer
    rcases List.mem_cons.mp hl with rfl | hl
    · cases hr : is_same_server_run su l with
      | error e' => rfl
      | ok b =>
        have := is_same_server_run_errored su l e he
        rw [hr] at this
        cases this
    · cases hr : is_same_server_run su x with
      | error e' => rfl
      | ok b =>
        have hxs := ih hl
        cases hf : filterSameServer su xs with
        | error e' => rfl
        | ok rest =>
          rw [hf] at hxs
          cases hxs

/-- When the start URL and every link parse, the fallible selection returns
exactly the pure filter that `crawlSteps` pushes. -/
lemma filterSameServer_ok (su : String) (ls : List String)
    (hsu : exceptErrored (urlparse_netloc su) = false)
    (hls : ∀ l ∈ ls, exceptErrored (urlparse_netloc l) = false) :
    filterSameServer su ls = Except.ok (ls.filter (fun l => is_same_server su l)) := by
  induction ls with
  | nil => rfl
  | cons x xs ih =>
    have hx : exceptErrored (urlparse_netloc x) = false := hls x (List.mem_cons_self _ _)
    obtain ⟨ns, hns⟩ : ∃ n, urlparse_netloc su = Except.ok n := by
      cases h : urlparse_netloc su with
      | ok n => exact ⟨n, rfl⟩
      | error e => rw [h] at hsu; cases hsu
    obtain ⟨nx, hnx⟩ : ∃ n, urlparse_netloc x = Except.ok n := by
      cases h : urlparse_netloc x with
      | ok n => exact ⟨n, rfl⟩
      | error e => rw [h] at hx; cases hx
    unfold filterSameServer
    rw [is_same_server_run_ok su x ns nx hns hnx,
      ih (fun l hl => hls l (List.mem_cons_of_mem _ hl))]
    simp only [List.filter_cons]
    rfl

/-- C6 counterexample: `is_same_server` accepts two URLs whose schemes
differ (`http` versus `https`) because it compares only the parsed netloc,
refuting "returns true iff scheme, host, and port are identical"; and a
bracket-malformed URL is not silently dropped: `urlparse` raises
`ValueError: Invalid IPv6 URL` on it, so evaluating the same-server check on
such a discovered link raises instead of filtering it out — refuting "never
causing a fatal error". -/
theorem C6_counterexample :
    is_same_server "http://h/a" "https://h/b" = true
  ∧ urlScheme "http://h/a" ≠ urlScheme "https://h/b"
  ∧ is_same_server_run "http://s/a" "http://[" = Except.error "ValueError: Invalid IPv6 URL"
  ∧ exceptErrored (filterSameServer "http://s/a" ["http://["]) = true :=
  ⟨rfl, by decide, rfl, rfl⟩

/-- C6 (amended): the same-origin check compares only the URLs' network
locations (`urlparse(...).netloc`, host and port), ignoring the scheme:
when both authorities parse, the executed check returns (without raising)
true iff the parsed netlocs are identical; under the same proviso the
`parse_links` selection is the pure netloc filter, and every URL fetched in
a crawl run is the start URL or passed that check (no fetch is ever
attempted for a link failing it).  URL parsing is not total: a link whose
authority has mismatched brackets makes `urlparse` raise `ValueError`,
which nothing catches, so evaluating the check on it aborts `parse_links`
(and the crawl) instead of dropping the link; a malformed URL that
`urlparse` does accept parses to an empty netloc and is dropped by the
check whenever the start URL has a nonempty netloc. -/
theorem C6_amended_same_origin :
    (∀ s u ns nu, urlparse_netloc s = Except.ok ns → urlparse_netloc u = Except.ok nu →
        is_same_server_run s u = Except.ok (is_same_server s u)
      ∧ (is_same_server s u = true ↔ ns = nu))
  ∧ (∀ su ls, exceptErrored (urlparse_netloc su) = false →
        (∀ l ∈ ls, exceptErrored (urlparse_netloc l) = false) →
        filterSameServer su ls = Except.ok (ls.filter (fun l => is_same_server su l)))
  ∧ (∀ web su fuel u,
        u ∈ (stateOf (crawlSteps web su fuel ⟨[], []⟩ [[su]])).fetchLog →
        u = su ∨ is_same_server su u = true)
  ∧ (∀ su ls l e, l ∈ ls → urlparse_netloc l = Except.error e →
        exceptErrored (filterSameServer su ls) = true)
  ∧ (∀ su m, urlNetloc su ≠ "" → urlNetloc m = "" → is_same_server su m = false) := by
  refine ⟨?_, ?_, ?_, ?_, ?_⟩
  · intro s u ns nu hs hu
    refine ⟨is_same_server_run_ok s u ns nu hs hu, ?_⟩
    have h1 : urlNetloc s = ns := urlparse_netloc_ok s ns hs
    have h2 : urlNetloc u = nu := urlparse_netloc_ok u nu hu
    unfold is_same_server
    rw [h1, h2]
    exact beq_iff_eq
  · exact filterSameServer_ok
  · intro web su fuel u hu
    refine crawlSteps_origin web su fuel ⟨[], []⟩ [[su]] ?_ ?_ u hu
    · intro u' hu'
      simp at hu'
    · intro l hl u' hu'
      rw [List.mem_singleton] at hl
      subst hl
      rw [List.mem_singleton] at hu'
      subst hu'
      exact Or.inl rfl
  · exact filterSameServer_error
  · intro su m h1 h2
    cases h : is_same_server su m with
    | false => rfl
    | true =>
      have hnet : urlNetloc su = urlNetloc m := by
        have := h
        unfold is_same_server at this
        exact beq_iff_eq.mp this
      exact absurd (hnet.trans h2) h1

/-- Witness for C6 (amended) at concrete inputs: the check runs without
raising and compares netlocs across different schemes, a fully-parsing link
list filters purely, the crawl-run fetch guard on the `webC1` run, a
bracket-malformed link raises, and a malformed-but-parsing URL is rejected. -/
theorem C6_witness :
    (is_same_server_run "http://h/a" "https://h/b"
        = Except.ok (is_same_server "http://h/a" "https://h/b")
      ∧ (is_same_server "http://h/a" "https://h/b" = true ↔ "h" = "h"))
  ∧ filterSameServer "http://s/a" ["http://s/n", "http://x/y"]
      = Except.ok (["http://s/n", "http://x/y"].filter
          (fun l => is_same_server "http://s/a" l))
  ∧ ("http://s/n" = "http://s/a" ∨ is_same_server "http://s/a" "http://s/n" = true)
  ∧ exceptErrored (filterSameServer "http://s/a" ["http://["]) = true
  ∧ is_same_server "http://h/a" "nonsense" = false :=
  ⟨C6_amended_same_origin.1 "http://h/a" "https://h/b" "h" "h" rfl rfl,
   C6_amended_same_origin.2.1 "http://s/a" ["http://s/n", "http://x/y"] rfl (by decide),
   C6_amended_same_origin.2.2.1 webC1 "http://s/a" 20 "http://s/n" (by decide),
   C6_amended_same_origin.2.2.2.1 "http://s/a" ["http://["] "http://["
     "ValueError: Invalid IPv6 URL" (by decide) rfl,
   C6_amended_same_origin.2.2.2.2 "http://h/a" "nonsense" (by decide) (by decide)⟩

end RillSearch
